import Mathlib

/-!
Shallow embedding of `src/main.c`, an interactive Bézier-curve editor.

Floats (`float`) are modelled as rationals (`ℚ`): every constant the
program manipulates in the claims under study (0, 1, 0.5, 0.25, 15,
0.001, 0.05, user coordinates) is treated exactly, matching the spec's
"within floating-point tolerance" reading.  The two C arrays `ps` and
`xs` are modelled as lists, with `ps_count` the length of the `ps`
list; `memcpy` and in-place writes become explicit list surgery.
-/

namespace Bezier

/-- Embeds `lerpf` (main.c:51): `a + (b - a) * t`. -/
def lerpf (a b t : ℚ) : ℚ := a + (b - a) * t

/-- Embeds `struct Vec2` (main.c:56): a 2D point with float fields. -/
structure Vec2 where
  x : ℚ
  y : ℚ
  deriving DecidableEq, Repr

/-- Embeds `vec2` (main.c:62). -/
def vec2 (x y : ℚ) : Vec2 := ⟨x, y⟩

/-- Embeds `vec2_add` (main.c:67). -/
def vec2_add (a b : Vec2) : Vec2 := vec2 (a.x + b.x) (a.y + b.y)

/-- Embeds `vec2_sub` (main.c:72). -/
def vec2_sub (a b : Vec2) : Vec2 := vec2 (a.x - b.x) (a.y - b.y)

/-- Embeds `vec2_scale` (main.c:77). -/
def vec2_scale (a : Vec2) (s : ℚ) : Vec2 := vec2 (a.x * s) (a.y * s)

/-- Embeds `lerpv2` (main.c:82): `vec2_add a (vec2_scale (vec2_sub b a) t)`. -/
def lerpv2 (a b : Vec2) (t : ℚ) : Vec2 := vec2_add a (vec2_scale (vec2_sub b a) t)

/-- Embeds `MARKER_SIZE` (main.c:19): `15.0f`. -/
def MARKER_SIZE : ℚ := 15

/-- Embeds `PS_CAPACITY` (main.c:230): the size of the global arrays `ps` and `xs`. -/
def PS_CAPACITY : Nat := 256

/-- One pass of the collapsing loop of `beziern_sample` (main.c:165-168):
with `n` active entries, `xs[i] = lerpv2(xs[i], xs[i+1], p)` for
`i = 0 .. n-2`.  Iteration `i` reads `xs[i+1]` before iteration `i+1`
overwrites it, so every read sees the original buffer: the pass maps the
list to the pairwise interpolation of adjacent original entries. -/
def collapse (p : ℚ) (l : List Vec2) : List Vec2 :=
  List.zipWith (fun u v => lerpv2 u v p) l l.tail

/-- The `while (n > 1)` loop of `beziern_sample` (main.c:163-170) acting on
the scratch buffer: each iteration rewrites the first `n - 1` slots with
`collapse` of the `n` active slots, leaves the rest of the buffer, and
decrements `n`. -/
def bezLoop (p : ℚ) : Nat → List Vec2 → List Vec2
  | 0, xs => xs
  | 1, xs => xs
  | n + 2, xs => bezLoop p (n + 1) (collapse p (xs.take (n + 2)) ++ xs.drop (n + 1))

/-- The pair of buffers `beziern_sample` works with: the caller's control
points `ps` and the scratch buffer `xs` (the globals at main.c:232-233, or
the locals of `bezier4_sample`). -/
structure Buffers where
  ps : List Vec2
  xs : List Vec2
  deriving DecidableEq, Repr

/-- Embeds `beziern_sample` (main.c:158-173) with the buffer state passed
explicitly: `memcpy(xs, ps, n * sizeof(Vec2))` overwrites the first `n`
slots of `xs` with the first `n` entries of `ps`, the while loop collapses
the scratch buffer, and the function returns `xs[0]` together with the
final buffer state.  `ps` is returned untouched: the source never writes
through `ps`. -/
def beziern_sample (b : Buffers) (n : Nat) (p : ℚ) : Vec2 × Buffers :=
  let xs1 := b.ps.take n ++ b.xs.drop n
  let xs2 := bezLoop p n xs1
  (xs2.headD (vec2 0 0), ⟨b.ps, xs2⟩)

/-- The evaluator's value on a bare list of control points: collapse the
list `length - 1` times (exactly what the while loop does to the active
prefix of the scratch buffer) and take the head.  `beziern_sample` is
related to this below. -/
def beziernAux (p : ℚ) : Nat → List Vec2 → List Vec2
  | 0, l => l
  | k + 1, l => beziernAux p k (collapse p l)

/-- Pure value of the de Casteljau evaluator on a list of control points. -/
def beziern (l : List Vec2) (p : ℚ) : Vec2 :=
  (beziernAux p (l.length - 1) l).headD (vec2 0 0)

lemma lerpv2_zero (u v : Vec2) : lerpv2 u v 0 = u := by
  cases u
  simp [lerpv2, vec2_add, vec2_scale, vec2_sub, vec2]

lemma lerpv2_one (u v : Vec2) : lerpv2 u v 1 = v := by
  cases u
  cases v
  simp [lerpv2, vec2_add, vec2_scale, vec2_sub, vec2]

lemma zipWith_left_take {α β : Type} : ∀ (l : List α) (l' : List β),
    List.zipWith (fun u _ => u) l l' = l.take l'.length := by
  intro l
  induction l with
  | nil => intro l'; simp
  | cons a t ih =>
    intro l'
    cases l' with
    | nil => simp
    | cons b t' => simp [ih t']

lemma zipWith_right_take {α β : Type} : ∀ (l : List α) (l' : List β),
    List.zipWith (fun _ v => v) l l' = l'.take l.length := by
  intro l
  induction l with
  | nil => intro l'; simp
  | cons a t ih =>
    intro l'
    cases l' with
    | nil => simp
    | cons b t' => simp [ih t']

lemma collapse_length (p : ℚ) (l : List Vec2) :
    (collapse p l).length = l.length - 1 := by
  simp [collapse, List.length_zipWith, List.length_tail]

lemma collapse_zero (l : List Vec2) : collapse 0 l = l.dropLast := by
  have h : (fun u v => lerpv2 u v 0) = fun (u : Vec2) (_ : Vec2) => u := by
    funext u v
    exact lerpv2_zero u v
  rw [collapse, h, zipWith_left_take, List.length_tail, ← List.dropLast_eq_take]

lemma collapse_one (l : List Vec2) : collapse 1 l = l.tail := by
  have h : (fun u v => lerpv2 u v 1) = fun (_ : Vec2) (v : Vec2) => v := by
    funext u v
    exact lerpv2_one u v
  rw [collapse, h, zipWith_right_take]
  exact List.take_of_length_le (by simp [List.length_tail])

lemma beziern_step (l : List Vec2) (p : ℚ) (h : 2 ≤ l.length) :
    beziern l p = beziern (collapse p l) p := by
  unfold beziern
  rw [collapse_length]
  have h1 : l.length - 1 = (l.length - 2) + 1 := by omega
  have h2 : l.length - 2 + 1 - 1 = l.length - 2 := by omega
  rw [h1, h2]
  rfl

lemma bezLoop_headD (p : ℚ) (n : Nat) (xs : List Vec2)
    (h1 : 1 ≤ n) (h2 : n ≤ xs.length) :
    (bezLoop p n xs).headD (vec2 0 0) = beziern (xs.take n) p := by
  induction n generalizing xs with
  | zero => omega
  | succ m ih =>
    cases m with
    | zero =>
      cases xs with
      | nil => simp at h2
      | cons a t => simp [bezLoop, beziern, beziernAux]
    | succ k =>
      have htake : (xs.take (k + 2)).length = k + 2 := by
        simp
        omega
      have hcl : (collapse p (xs.take (k + 2))).length = k + 1 := by
        rw [collapse_length, htake]
        omega
      have hylen : (collapse p (xs.take (k + 2)) ++ xs.drop (k + 1)).length = xs.length := by
        simp [hcl]
        omega
      have hstep : bezLoop p (k + 2) xs
          = bezLoop p (k + 1) (collapse p (xs.take (k + 2)) ++ xs.drop (k + 1)) := rfl
      rw [hstep, ih _ (by omega) (by omega)]
      rw [List.take_left' hcl, ← beziern_step _ _ (by omega)]

lemma beziern_sample_fst (b : Buffers) (n : Nat) (p : ℚ)
    (h1 : 1 ≤ n) (h2 : n ≤ b.ps.length) :
    (beziern_sample b n p).1 = beziern (b.ps.take n) p := by
  have hlen : (b.ps.take n).length = n := by
    simp
    omega
  have hxs1 : n ≤ (b.ps.take n ++ b.xs.drop n).length := by
    simp [hlen]
  show (bezLoop p n (b.ps.take n ++ b.xs.drop n)).headD (vec2 0 0) = _
  rw [bezLoop_headD p n _ h1 hxs1, List.take_left' hlen]

lemma beziern_sample_ps (b : Buffers) (n : Nat) (p : ℚ) :
    (beziern_sample b n p).2.ps = b.ps := rfl

lemma beziernAux_zero_headD (k : Nat) (l : List Vec2) (hk : k < l.length) :
    (beziernAux 0 k l).headD (vec2 0 0) = l.headD (vec2 0 0) := by
  induction k generalizing l with
  | zero => rfl
  | succ m ih =>
    have hstep : beziernAux 0 (m + 1) l = beziernAux 0 m l.dropLast := by
      show beziernAux 0 m (collapse 0 l) = _
      rw [collapse_zero]
    rw [hstep, ih l.dropLast (by simp [List.length_dropLast]; omega)]
    match l, hk with
    | a :: b :: t, _ => simp

lemma beziernAux_one_drop (k : Nat) (l : List Vec2) :
    beziernAux 1 k l = l.drop k := by
  induction k generalizing l with
  | zero => rfl
  | succ m ih =>
    have hstep : beziernAux 1 (m + 1) l = beziernAux 1 m l.tail := by
      show beziernAux 1 m (collapse 1 l) = _
      rw [collapse_one]
    rw [hstep, ih l.tail, ← List.drop_one, List.drop_drop, Nat.add_comm]

lemma headD_drop_getLastD (l : List Vec2) :
    (l.drop (l.length - 1)).headD (vec2 0 0) = l.getLastD (vec2 0 0) := by
  induction l with
  | nil => rfl
  | cons a t ih =>
    cases t with
    | nil => rfl
    | cons b t' =>
      have hlen : (a :: b :: t').length - 1 = (b :: t').length - 1 + 1 := by
        simp
      rw [hlen, List.drop_succ_cons, ih]
      simp [List.getLastD_cons]

lemma beziern_zero (l : List Vec2) (h : l ≠ []) :
    beziern l 0 = l.headD (vec2 0 0) := by
  unfold beziern
  exact beziernAux_zero_headD (l.length - 1) l
    (by cases l with | nil => exact absurd rfl h | cons a t => simp)

lemma beziern_one (l : List Vec2) :
    beziern l 1 = l.getLastD (vec2 0 0) := by
  unfold beziern
  rw [beziernAux_one_drop, headD_drop_getLastD]

/-- Embeds the live path of `bezier4_sample` (main.c:179-183): it builds the
local arrays `ps[4] = {a,b,c,d}` and `xs[4]` (uninitialized, modelled as
zeroes; the value is overwritten by the `memcpy` before any read) and
returns `beziern_sample(ps, xs, 4, p)`. -/
def bezier4_sample (a b c d : Vec2) (p : ℚ) : Vec2 :=
  (beziern_sample ⟨[a, b, c, d], [vec2 0 0, vec2 0 0, vec2 0 0, vec2 0 0]⟩ 4 p).1

/-- Embeds the three unrolled lerp phases of `bezier4_sample`
(main.c:184-195), the code after the early `return` (unreachable in the
source). -/
def bezier4_phases (a b c d : Vec2) (p : ℚ) : Vec2 :=
  let ab := lerpv2 a b p
  let bc := lerpv2 b c p
  let cd := lerpv2 c d p
  let abc := lerpv2 ab bc p
  let bcd := lerpv2 bc cd p
  lerpv2 abc bcd p

/-- The parameter values visited by the sampling loop of
`render_bezier_markers` (main.c:208): `for (float p = 0.0f + s; p <= 1.0f;
p += s)`.  The recursion follows the loop exactly; the conjunct `0 < s`
(under which the C loop terminates) guards well-foundedness. -/
def markerTs (s : ℚ) (p : ℚ) : List ℚ :=
  if h : 0 < s ∧ p ≤ 1 then p :: markerTs s (p + s) else []
termination_by (⌈(1 - p) / s⌉ + 1).toNat
decreasing_by
  obtain ⟨hs, hp⟩ := h
  have hcast : (1 - (p + s)) / s = (1 - p) / s - 1 := by
    field_simp
    ring
  rw [hcast, Int.ceil_sub_one]
  have h0 : 0 ≤ ⌈(1 - p) / s⌉ :=
    Int.ceil_nonneg (div_nonneg (by linarith) hs.le)
  omega

/-- Embeds `render_bezier_markers` (main.c:204-213) as the list of curve
points at which markers are drawn: the loop threads the shared buffers
through `beziern_sample` once per visited parameter and emits the sampled
point. -/
def render_bezier_markers (b : Buffers) (n : Nat) (s : ℚ) : List Vec2 × Buffers :=
  (markerTs s (0 + s)).foldl
    (fun acc t =>
      let r := beziern_sample acc.2 n t
      (acc.1 ++ [r.1], r.2))
    ([], b)

/-- The test of the `if` in `ps_at` (main.c:247-251): `ps_begin` is the
marker's top-left corner, `ps_end` its bottom-right corner, and the
position must satisfy all four inclusive bounds. -/
def hitCond (pos q : Vec2) : Prop :=
  let ps_size := vec2 MARKER_SIZE MARKER_SIZE
  let ps_begin := vec2_sub q (vec2_scale ps_size (1 / 2))
  let ps_end := vec2_add ps_begin ps_size
  pos.x ≥ ps_begin.x ∧ pos.x ≤ ps_end.x ∧ pos.y ≥ ps_begin.y ∧ pos.y ≤ ps_end.y

instance (pos q : Vec2) : Decidable (hitCond pos q) := by
  unfold hitCond
  infer_instance

/-- The scan of `ps_at` (main.c:242-257) from index `i`: the first index
whose marker square contains the position is returned, else `-1`. -/
def psAtAux (pos : Vec2) : List Vec2 → Nat → Int
  | [], _ => -1
  | q :: rest, i => if hitCond pos q then (i : Int) else psAtAux pos rest (i + 1)

/-- Embeds `ps_at` (main.c:242-257) over the active points. -/
def ps_at (l : List Vec2) (pos : Vec2) : Int := psAtAux pos l 0

/-- Modelled from the spec's words for the claim about hit-testing: a point
is hit when `pos` lies in the axis-aligned square of side `MARKER_SIZE`
centered on it, inclusive on all four edges. -/
def inSquare (pos q : Vec2) : Bool :=
  decide (|pos.x - q.x| ≤ MARKER_SIZE / 2 ∧ |pos.y - q.y| ≤ MARKER_SIZE / 2)

/-- Modelled from the spec's words: `hitTest` returns the lowest index
whose marker square contains the position, or none. -/
def hitTestSpec (l : List Vec2) (pos : Vec2) : Option Nat :=
  l.findIdx? (inSquare pos)

/-- The input events the interaction loop reacts to (main.c:286-337):
quit, a key press (only CAPSLOCK is recognized), left/other mouse button
down and up, mouse motion, and wheel. -/
inductive Event where
  | quit : Event
  | keyDown (capslock : Bool) : Event
  | mouseButtonDown (left : Bool) (pos : Vec2) : Event
  | mouseMotion (pos : Vec2) : Event
  | mouseButtonUp (left : Bool) : Event
  | mouseWheel (y : Int) : Event
  deriving DecidableEq, Repr

/-- The session state the event handlers mutate (main.c:232-235 and
277-280): the control points with their count (`ps` and `ps_count`,
modelled as one list), the selection, the display-mode flag, the sample
step and the quit flag. -/
structure LoopState where
  ps : List Vec2
  ps_selected : Int
  markers : Bool
  bezier_sample_step : ℚ
  quit : Bool
  deriving DecidableEq, Repr

/-- The state at the top of the event loop (main.c:232-235, 277-280):
no points, no selection, marker mode on, step `0.05`, not quitting. -/
def initState : LoopState :=
  ⟨[], -1, true, 1 / 20, false⟩

/-- Embeds one iteration of the event `switch` (main.c:286-337). On left
button down the selection becomes `ps_at(pos)` and, when that is negative,
`ps[ps_count++] = pos` appends the position (no capacity check, as in the
source). On motion with a selection the selected entry is overwritten.
On left button up the selection is cleared. On wheel the step moves by
`0.001` and is clamped with `fmin`/`fmax`. -/
def handleEvent (s : LoopState) (e : Event) : LoopState :=
  match e with
  | .quit => { s with quit := true }
  | .keyDown caps => if caps then { s with markers := !s.markers } else s
  | .mouseButtonDown left pos =>
    if left then
      let sel := ps_at s.ps pos
      if sel < 0 then { s with ps_selected := sel, ps := s.ps ++ [pos] }
      else { s with ps_selected := sel }
    else s
  | .mouseMotion pos =>
    if 0 ≤ s.ps_selected then { s with ps := s.ps.set s.ps_selected.toNat pos }
    else s
  | .mouseButtonUp left => if left then { s with ps_selected := -1 } else s
  | .mouseWheel y =>
    if 0 < y then { s with bezier_sample_step := min (s.bezier_sample_step + 1 / 1000) 1 }
    else { s with bezier_sample_step := max (s.bezier_sample_step - 1 / 1000) (1 / 1000) }

/-- The state after the loop drains a list of events, starting from
`initState`. -/
def run (evs : List Event) : LoopState :=
  evs.foldl handleEvent initState

lemma hitCond_iff_inSquare (pos q : Vec2) : hitCond pos q ↔ inSquare pos q = true := by
  simp only [hitCond, inSquare, vec2, vec2_sub, vec2_add, vec2_scale, MARKER_SIZE,
    decide_eq_true_eq, abs_le, ge_iff_le]
  constructor
  · rintro ⟨h1, h2, h3, h4⟩
    exact ⟨⟨by linarith, by linarith⟩, by linarith, by linarith⟩
  · rintro ⟨⟨h1, h2⟩, h3, h4⟩
    exact ⟨by linarith, by linarith, by linarith, by linarith⟩

lemma psAtAux_eq (pos : Vec2) : ∀ (l : List Vec2) (i : Nat),
    psAtAux pos l i
      = ((List.findIdx? (inSquare pos) l i).map Int.ofNat).getD (-1) := by
  intro l
  induction l with
  | nil => intro i; simp [psAtAux, List.findIdx?]
  | cons q rest ih =>
    intro i
    by_cases hq : inSquare pos q = true
    · rw [psAtAux, if_pos ((hitCond_iff_inSquare pos q).mpr hq)]
      simp [List.findIdx?_cons, hq, Int.ofNat_eq_natCast]
    · rw [psAtAux, if_neg (fun hc => hq ((hitCond_iff_inSquare pos q).mp hc)), ih]
      simp [List.findIdx?_cons, hq]

lemma ps_at_eq_spec (l : List Vec2) (pos : Vec2) :
    ps_at l pos = ((hitTestSpec l pos).map Int.ofNat).getD (-1) :=
  psAtAux_eq pos l 0

lemma ps_at_eq_neg_one_iff (l : List Vec2) (pos : Vec2) :
    ps_at l pos = -1 ↔ ∀ q ∈ l, inSquare pos q = false := by
  rw [ps_at_eq_spec]
  simp only [hitTestSpec]
  rw [← @List.findIdx?_eq_none_iff Vec2 l (inSquare pos)]
  cases hfx : List.findIdx? (inSquare pos) l with
  | none => simp
  | some j =>
    simp only [Option.map_some', Option.getD_some, reduceCtorEq, iff_false]

lemma findIdx?_first {α : Type} (p : α → Bool) (d : α) :
    ∀ (l : List α) (j : Nat), l.findIdx? p = some j →
      j < l.length ∧ p (l.getD j d) = true ∧ ∀ m, m < j → p (l.getD m d) = false := by
  intro l
  induction l with
  | nil => intro j h; simp at h
  | cons x xs ih =>
    intro j h
    rw [List.findIdx?_cons] at h
    by_cases hx : p x = true
    · rw [if_pos hx] at h
      cases h
      exact ⟨by simp, by simpa using hx, fun m hm => absurd hm (by omega)⟩
    · rw [if_neg hx] at h
      rw [show (1 : Nat) = 0 + 1 from rfl, List.findIdx?_succ] at h
      cases hfx : List.findIdx? p xs with
      | none => rw [hfx] at h; simp at h
      | some j' =>
        rw [hfx] at h
        simp only [Option.map_some'] at h
        cases h
        obtain ⟨hb, hg, hfirst⟩ := ih j' hfx
        refine ⟨by simp; omega, by simpa using hg, ?_⟩
        intro m hm
        cases m with
        | zero => simpa using (Bool.not_eq_true (p x)).mp hx
        | succ m' => exact hfirst m' (by omega)

lemma ps_at_lt_length (l : List Vec2) (pos : Vec2) (h : 0 ≤ ps_at l pos) :
    ps_at l pos < (l.length : ℤ) := by
  rw [ps_at_eq_spec] at h ⊢
  simp only [hitTestSpec] at h ⊢
  cases hfx : List.findIdx? (inSquare pos) l with
  | none => rw [hfx] at h; simp at h
  | some j =>
    simp only [Option.map_some', Option.getD_some, Int.ofNat_eq_natCast]
    obtain ⟨hb, _, _⟩ := findIdx?_first (inSquare pos) (vec2 0 0) l j hfx
    omega

lemma sel_inv_step (s : LoopState) (e : Event)
    (h : 0 ≤ s.ps_selected → s.ps_selected < (s.ps.length : ℤ)) :
    0 ≤ (handleEvent s e).ps_selected →
      (handleEvent s e).ps_selected < ((handleEvent s e).ps.length : ℤ) := by
  cases e with
  | quit => exact h
  | keyDown caps =>
    dsimp only [handleEvent]
    split <;> exact h
  | mouseButtonDown left pos =>
    dsimp only [handleEvent]
    split
    · split
      · intro hh
        have hh' : (0 : ℤ) ≤ ps_at s.ps pos := hh
        exact absurd hh' (by omega)
      · exact ps_at_lt_length s.ps pos
    · exact h
  | mouseMotion pos =>
    dsimp only [handleEvent]
    split
    · intro hh
      rw [List.length_set]
      exact h (by assumption)
    · exact h
  | mouseButtonUp left =>
    dsimp only [handleEvent]
    split
    · intro hh
      have hh' : (0 : ℤ) ≤ -1 := hh
      exact absurd hh' (by norm_num)
    · exact h
  | mouseWheel y =>
    dsimp only [handleEvent]
    split <;> exact h

lemma foldl_sel_inv (evs : List Event) : ∀ (s : LoopState),
    (0 ≤ s.ps_selected → s.ps_selected < (s.ps.length : ℤ)) →
    (0 ≤ (evs.foldl handleEvent s).ps_selected →
      (evs.foldl handleEvent s).ps_selected < ((evs.foldl handleEvent s).ps.length : ℤ)) := by
  induction evs with
  | nil => intro s h; simpa using h
  | cons e t ih =>
    intro s h
    simpa [List.foldl_cons] using ih (handleEvent s e) (sel_inv_step s e h)

lemma step_inv_step (s : LoopState) (e : Event)
    (h : 1 / 1000 ≤ s.bezier_sample_step ∧ s.bezier_sample_step ≤ 1) :
    1 / 1000 ≤ (handleEvent s e).bezier_sample_step ∧
      (handleEvent s e).bezier_sample_step ≤ 1 := by
  obtain ⟨h1, h2⟩ := h
  cases e with
  | quit => exact ⟨h1, h2⟩
  | keyDown caps =>
    dsimp only [handleEvent]
    split <;> exact ⟨h1, h2⟩
  | mouseButtonDown left pos =>
    dsimp only [handleEvent]
    split
    · split <;> exact ⟨h1, h2⟩
    · exact ⟨h1, h2⟩
  | mouseMotion pos =>
    dsimp only [handleEvent]
    split <;> exact ⟨h1, h2⟩
  | mouseButtonUp left =>
    dsimp only [handleEvent]
    split <;> exact ⟨h1, h2⟩
  | mouseWheel y =>
    dsimp only [handleEvent]
    split
    · exact ⟨le_min (by linarith) (by norm_num), min_le_right _ _⟩
    · exact ⟨le_max_right _ _, max_le (by linarith) (by norm_num)⟩

lemma foldl_step_inv (evs : List Event) : ∀ (s : LoopState),
    (1 / 1000 ≤ s.bezier_sample_step ∧ s.bezier_sample_step ≤ 1) →
    (1 / 1000 ≤ (evs.foldl handleEvent s).bezier_sample_step ∧
      (evs.foldl handleEvent s).bezier_sample_step ≤ 1) := by
  induction evs with
  | nil => intro s h; simpa using h
  | cons e t ih =>
    intro s h
    simpa [List.foldl_cons] using ih (handleEvent s e) (step_inv_step s e h)

lemma handleEvent_down_miss_ps (s : LoopState) (pos : Vec2)
    (hmiss : ps_at s.ps pos = -1) :
    (handleEvent s (Event.mouseButtonDown true pos)).ps = s.ps ++ [pos] := by
  simp [handleEvent, hmiss]

/-- A burst of `m` left-button presses at pairwise distant positions
`(20 k, 0)`, `k = 0 .. m-1`: every press lands outside every existing
marker square, so each one appends a point. -/
def addEvents (m : Nat) : List Event :=
  (List.range m).map (fun k : Nat => Event.mouseButtonDown true (vec2 (20 * (k : ℚ)) 0))

lemma run_addEvents (m : Nat) :
    (run (addEvents m)).ps = (List.range m).map (fun k : Nat => vec2 (20 * (k : ℚ)) 0) := by
  induction m with
  | zero => rfl
  | succ m ih =>
    have hsplit : addEvents (m + 1)
        = addEvents m ++ [Event.mouseButtonDown true (vec2 (20 * m) 0)] := by
      simp [addEvents, List.range_succ]
    have hfold : run (addEvents (m + 1))
        = handleEvent (run (addEvents m)) (Event.mouseButtonDown true (vec2 (20 * m) 0)) := by
      rw [run, hsplit, List.foldl_append]
      rfl
    have hmiss : ps_at (run (addEvents m)).ps (vec2 (20 * m) 0) = -1 := by
      rw [ih, ps_at_eq_neg_one_iff]
      intro q hq
      rw [List.mem_map] at hq
      obtain ⟨k, hkmem, rfl⟩ := hq
      rw [List.mem_range] at hkmem
      have hk' : (k : ℚ) + 1 ≤ (m : ℚ) := by exact_mod_cast hkmem
      simp only [inSquare, MARKER_SIZE, vec2, decide_eq_false_iff_not]
      rintro ⟨hx, -⟩
      rw [abs_of_nonneg (by linarith)] at hx
      linarith
    rw [hfold, handleEvent_down_miss_ps _ _ hmiss, ih, List.range_succ]
    simp

lemma markerTs_pos (s p : ℚ) (hs : 0 < s) (hp : p ≤ 1) :
    markerTs s p = p :: markerTs s (p + s) := by
  rw [markerTs, dif_pos ⟨hs, hp⟩]

lemma markerTs_stop (s p : ℚ) (hp : ¬(0 < s ∧ p ≤ 1)) : markerTs s p = [] := by
  rw [markerTs, dif_neg hp]

lemma markerTs_quarter :
    markerTs (1 / 4 : ℚ) (0 + 1 / 4) = [1 / 4, 1 / 2, 3 / 4, 1] := by
  rw [show (0 + 1 / 4 : ℚ) = 1 / 4 by norm_num]
  rw [markerTs_pos _ _ (by norm_num) (by norm_num)]
  rw [show (1 / 4 + 1 / 4 : ℚ) = 1 / 2 by norm_num]
  rw [markerTs_pos _ _ (by norm_num) (by norm_num)]
  rw [show (1 / 2 + 1 / 4 : ℚ) = 3 / 4 by norm_num]
  rw [markerTs_pos _ _ (by norm_num) (by norm_num)]
  rw [show (3 / 4 + 1 / 4 : ℚ) = 1 by norm_num]
  rw [markerTs_pos _ _ (by norm_num) (by norm_num)]
  rw [show (1 + 1 / 4 : ℚ) = 5 / 4 by norm_num]
  rw [markerTs_stop _ _ (by norm_num)]

lemma render_markers_fold (n : Nat) (h1 : 1 ≤ n) : ∀ (ts : List ℚ) (b : Buffers),
    n ≤ b.ps.length → ∀ (acc : List Vec2),
    (ts.foldl (fun acc t =>
      let r := beziern_sample acc.2 n t
      (acc.1 ++ [r.1], r.2)) (acc, b)).1
      = acc ++ ts.map (fun t => beziern (b.ps.take n) t) := by
  intro ts
  induction ts with
  | nil => intro b h2 acc; simp
  | cons t ts' ih =>
    intro b h2 acc
    rw [List.foldl_cons]
    refine (ih (beziern_sample b n t).2 (by rw [beziern_sample_ps]; exact h2)
      (acc ++ [(beziern_sample b n t).1])).trans ?_
    rw [beziern_sample_ps, beziern_sample_fst b n t h1 h2]
    simp

/-- Claim C1: for every sequence of N >= 1 control points, the de Casteljau
evaluator `beziern_sample` returns the first control point at t = 0 and the
last control point at t = 1 (exactly, in the rational model). -/
theorem beziern_sample_endpoints (ps xs : List Vec2) (h : ps ≠ []) :
    (beziern_sample ⟨ps, xs⟩ ps.length 0).1 = ps.headD (vec2 0 0) ∧
    (beziern_sample ⟨ps, xs⟩ ps.length 1).1 = ps.getLastD (vec2 0 0) := by
  have h1 : 1 ≤ ps.length := List.length_pos.mpr h
  constructor
  · rw [beziern_sample_fst _ _ _ h1 (le_refl _)]
    show beziern (ps.take ps.length) 0 = ps.headD (vec2 0 0)
    rw [List.take_length]
    exact beziern_zero ps h
  · rw [beziern_sample_fst _ _ _ h1 (le_refl _)]
    show beziern (ps.take ps.length) 1 = ps.getLastD (vec2 0 0)
    rw [List.take_length]
    exact beziern_one ps

/-- Witness for C1 at the two-point sequence `[(1,2),(3,4)]`. -/
theorem beziern_sample_endpoints_witness :
    (beziern_sample ⟨[vec2 1 2, vec2 3 4], []⟩ [vec2 1 2, vec2 3 4].length 0).1
        = [vec2 1 2, vec2 3 4].headD (vec2 0 0) ∧
    (beziern_sample ⟨[vec2 1 2, vec2 3 4], []⟩ [vec2 1 2, vec2 3 4].length 1).1
        = [vec2 1 2, vec2 3 4].getLastD (vec2 0 0) :=
  beziern_sample_endpoints [vec2 1 2, vec2 3 4] [] (by simp)

/-- Claim C2: `beziern_sample` never mutates the caller's point buffer `ps`
(only the scratch buffer `xs` changes), so a second evaluation at any
parameter after a first one returns exactly what a fresh evaluation on the
original points returns. -/
theorem beziern_sample_preserves_ps (b : Buffers) (n : Nat) (p : ℚ) :
    (beziern_sample b n p).2.ps = b.ps ∧
    ∀ p' : ℚ, 1 ≤ n → n ≤ b.ps.length →
      (beziern_sample (beziern_sample b n p).2 n p').1 = (beziern_sample b n p').1 := by
  refine ⟨rfl, fun p' h1 h2 => ?_⟩
  rw [beziern_sample_fst _ _ _ h1 h2,
    beziern_sample_fst _ _ _ h1 (by rw [beziern_sample_ps]; exact h2),
    beziern_sample_ps]

/-- Claim C3: on the S-curve control points `[(0,0),(0,100),(100,100),
(100,0)]` the evaluator yields `(50,75)` at t = 1/2, for any initial
scratch buffer. -/
theorem beziern_sample_scurve_midpoint (xs0 : List Vec2) :
    (beziern_sample ⟨[vec2 0 0, vec2 0 100, vec2 100 100, vec2 100 0], xs0⟩ 4 (1 / 2)).1
      = vec2 50 75 := by
  rw [beziern_sample_fst _ _ _ (by norm_num) (by simp)]
  show beziern ([vec2 0 0, vec2 0 100, vec2 100 100, vec2 100 0].take 4) (1 / 2) = vec2 50 75
  norm_num [beziern, beziernAux, collapse, lerpv2, vec2_add, vec2_scale, vec2_sub, vec2]

/-- Claim C4: a single-point sequence is returned unchanged for every
parameter t, inside or outside [0,1]. -/
theorem beziern_sample_single (a : Vec2) (t : ℚ) (xs0 : List Vec2) :
    (beziern_sample ⟨[a], xs0⟩ 1 t).1 = a := by
  rw [beziern_sample_fst _ _ _ (le_refl 1) (by simp)]
  rfl

/-- Claim C5: `ps_at` agrees with the spec-modelled hit test (lowest index
whose inclusive marker square contains the position, else none): it equals
the first-match index search, it returns -1 exactly when no point's square
contains the position, and a found index is in range, is a hit, and every
smaller index is a miss. -/
theorem ps_at_spec (l : List Vec2) (pos : Vec2) :
    ps_at l pos = ((hitTestSpec l pos).map Int.ofNat).getD (-1) ∧
    (ps_at l pos = -1 ↔ ∀ q ∈ l, inSquare pos q = false) ∧
    (∀ j : Nat, hitTestSpec l pos = some j →
      j < l.length ∧ inSquare pos (l.getD j (vec2 0 0)) = true ∧
      ∀ m, m < j → inSquare pos (l.getD m (vec2 0 0)) = false) :=
  ⟨ps_at_eq_spec l pos, ps_at_eq_neg_one_iff l pos,
    fun j h => findIdx?_first (inSquare pos) (vec2 0 0) l j h⟩

/-- Claim C6 (code bug evidence): the pointer-down-over-empty-space gesture
appends with no capacity check, so 257 presses at pairwise distant
positions drive the active point count past `PS_CAPACITY = 256`. -/
theorem ps_count_exceeds_capacity :
    PS_CAPACITY < (run (addEvents (PS_CAPACITY + 1))).ps.length := by
  rw [run_addEvents]
  simp [PS_CAPACITY]

/-- Claim C7: in every state reachable from the initial state, a
non-negative selection index is a valid index into the current point
sequence. -/
theorem run_ps_selected_valid (evs : List Event)
    (h : 0 ≤ (run evs).ps_selected) :
    (run evs).ps_selected < ((run evs).ps.length : ℤ) :=
  foldl_sel_inv evs initState (fun h0 => absurd h0 (by decide)) h

/-- Witness for C7: after placing a point at (5,5) and pressing on it
again, the selection is 0 and the point count is 1. -/
theorem run_ps_selected_valid_witness :
    (run [Event.mouseButtonDown true (vec2 5 5),
          Event.mouseButtonDown true (vec2 5 5)]).ps_selected
      < (((run [Event.mouseButtonDown true (vec2 5 5),
          Event.mouseButtonDown true (vec2 5 5)]).ps.length : ℤ)) :=
  run_ps_selected_valid _ (by
    norm_num [run, handleEvent, ps_at, psAtAux, hitCond, initState,
      vec2, vec2_sub, vec2_add, vec2_scale, MARKER_SIZE])

/-- Claim C8: the sample step starts in range and stays within
[0.001, 1.0] in every reachable state. -/
theorem run_sample_step_range (evs : List Event) :
    1 / 1000 ≤ (run evs).bezier_sample_step ∧ (run evs).bezier_sample_step ≤ 1 :=
  foldl_step_inv evs initState ⟨by norm_num [initState], by norm_num [initState]⟩

/-- Claim C9: marker-mode rendering with step 1/4 emits exactly four
markers, the curve sampled at t = 1/4, 1/2, 3/4, 1, for any nonempty
control sequence; and for any valid step the first visited parameter is
t = step (t = 0 is never sampled). -/
theorem render_bezier_markers_quarter :
    (∀ (ps xs : List Vec2), ps ≠ [] →
      (render_bezier_markers ⟨ps, xs⟩ ps.length (1 / 4)).1
        = [beziern ps (1 / 4), beziern ps (1 / 2), beziern ps (3 / 4), beziern ps 1]) ∧
    (∀ s : ℚ, 0 < s → s ≤ 1 → (markerTs s (0 + s)).head? = some s) := by
  constructor
  · intro ps xs h
    have h1 : 1 ≤ ps.length := List.length_pos.mpr h
    have hfold := render_markers_fold ps.length h1 (markerTs (1 / 4) (0 + 1 / 4))
      ⟨ps, xs⟩ (le_refl _) []
    have hrend : (render_bezier_markers ⟨ps, xs⟩ ps.length (1 / 4)).1
        = [] ++ (markerTs (1 / 4) (0 + 1 / 4)).map
            (fun t => beziern (ps.take ps.length) t) := hfold
    rw [hrend, markerTs_quarter]
    simp [List.take_length]
  · intro s hs hs1
    rw [zero_add, markerTs_pos s s hs hs1]
    rfl

/-- Claim C10: the hard-coded 4-point evaluator equals the generalized
evaluator on the sequence [a,b,c,d] (its live path literally calls it),
and also equals the unrolled three-phase lerp code that sits dead after
the early return. -/
theorem bezier4_sample_agree (a b c d : Vec2) (p : ℚ) :
    bezier4_sample a b c d p
        = (beziern_sample ⟨[a, b, c, d],
            [vec2 0 0, vec2 0 0, vec2 0 0, vec2 0 0]⟩ 4 p).1 ∧
    bezier4_sample a b c d p = beziern [a, b, c, d] p ∧
    bezier4_sample a b c d p = bezier4_phases a b c d p :=
  ⟨rfl, rfl, rfl⟩

end Bezier

